import Mathlib

/-!
Verification development for the Weave RAG pipeline engine.

Shallow embedding of the core pipeline: the fixed chunker
(chunker.FixedChunker), the in-memory metadata store (store/memory),
the in-memory vector store (vectorstore/memory), the MMR retriever
(retriever.MMRRetriever), the extension registry (ext.Registry) and the
engine coordinator (engine.Engine).

Modelling conventions:
 - Go strings that are sliced or trimmed are `List Char` (all concrete
   inputs are ASCII, so byte length = character length);
   short identifier-like strings (tenant, names, metadata keys) are `String`.
 - Go `int` is `Int` where it can go negative, `Nat` where it cannot.
 - float64 scores and vectors are `ℚ`; `math.Sqrt` is `sqrtQ`, which is
   exact whenever the radicand is the square of a rational, which covers
   every concrete vector used in this file.
 - entity identifiers are `Nat`, drawn from a per-system counter.
 - loops whose termination is in question are given explicit fuel; a
   `none` result for every fuel models a call that never returns.
-/

/- Batteries marks the rational field operations irreducible; make them
reducible again so concrete score computations evaluate in the kernel. -/
attribute [local semireducible] Rat.add Rat.mul Rat.inv Rat.sub

/-- Go string: list of (byte-sized) characters. -/
abbrev Str := List Char

/-- Model of strings.TrimSpace: drop leading and trailing whitespace. -/
def goTrimSpace (s : Str) : Str :=
  ((s.dropWhile Char.isWhitespace).reverse.dropWhile Char.isWhitespace).reverse

/-- Model of the Go slice expression text[a:b] (for 0 ≤ a ≤ b ≤ len). -/
def goSlice (s : Str) (a b : Nat) : Str := (s.take b).drop a

/-- Options passed to a chunker (chunker.Options). -/
structure ChunkOptions where
  chunkSize : Int
  chunkOverlap : Int
  strategy : String
  deriving DecidableEq

/-- Chunk produced by a chunker (chunker.ChunkResult). -/
structure ChunkResult where
  content : Str
  index : Nat
  startOffset : Int
  endOffset : Int
  tokenCount : Nat
  metadata : List (String × String) := []
  deriving DecidableEq

/-- Loop body of FixedChunker.Chunk, fuelled.  One recursive call per Go
loop iteration; `none` means the fuel ran out before the loop exited (or
a slice bound went negative, which panics in Go). -/
def fixedChunkLoop (text : Str) (charSize charOverlap : Int) :
    Nat → Int → Nat → List ChunkResult → Option (List ChunkResult)
  | 0, _, _, _ => none
  | fuel + 1, start, idx, acc =>
    if start < (text.length : Int) then
      if 0 ≤ start then
        let endPos : Int := min (start + charSize) (text.length : Int)
        let content := goSlice text start.toNat endPos.toNat
        let acc' := acc ++ [{ content := content, index := idx,
                              startOffset := start, endOffset := endPos,
                              tokenCount := content.length / 4 }]
        let start' := endPos - charOverlap
        if start' ≥ endPos then some acc'
        else fixedChunkLoop text charSize charOverlap fuel start' (idx + 1) acc'
      else none
    else some acc

/-- FixedChunker.Chunk (chunker/fixed.go).  Defaults chunkSize to 512 and
overlap to 0 when unset or non-positive, scales both by 4 chars per token,
trims the input, and runs the slicing loop. -/
def fixedChunk (fuel : Nat) (text : Str) (opts : Option ChunkOptions) :
    Option (List ChunkResult) :=
  let chunkSize : Int := match opts with
    | some o => if o.chunkSize > 0 then o.chunkSize else 512
    | none => 512
  let overlap : Int := match opts with
    | some o => if o.chunkOverlap > 0 then o.chunkOverlap else 0
    | none => 0
  let charSize := chunkSize * 4
  let charOverlap := overlap * 4
  let t := goTrimSpace text
  if t.isEmpty then some []
  else fixedChunkLoop t charSize charOverlap fuel 0 0 []

/-- Document lifecycle state (document.State). -/
inductive DocState
  | pending | processing | ready | failed
  deriving DecidableEq

/-- Collection entity (collection.Collection); fields the engine reads. -/
structure Collection where
  id : Nat
  name : String
  tenantID : String
  appID : String
  embeddingModel : String
  embeddingDims : Int
  chunkStrategy : String
  chunkSize : Int
  chunkOverlap : Int
  deriving DecidableEq

/-- Document entity (document.Document); fields the engine reads or writes. -/
structure Document where
  id : Nat
  collectionID : Nat
  tenantID : String
  title : String
  source : String
  sourceType : String
  contentHash : Str
  contentLength : Nat
  chunkCount : Int
  metadata : List (String × String)
  state : DocState
  error : String
  deriving DecidableEq

/-- Chunk entity (chunk.Chunk). -/
structure Chunk where
  id : Nat
  documentID : Nat
  collectionID : Nat
  tenantID : String
  content : Str
  index : Nat
  startOffset : Int
  endOffset : Int
  tokenCount : Nat
  metadata : List (String × String)
  deriving DecidableEq

/-- Vector store entry (vectorstore.Entry). -/
structure VEntry where
  id : Nat
  vector : List ℚ
  content : Str
  metadata : List (String × String)
  deriving DecidableEq

/-- In-memory metadata store state (store/memory.Store): its three maps,
modelled as lists keyed by the numeric ids. -/
structure MemStore where
  collections : List Collection
  documents : List Document
  chunks : List Chunk
  deriving DecidableEq

/-- In-memory vector store state (vectorstore/memory.Store). -/
structure VecStore where
  entries : List VEntry
  deriving DecidableEq

/-- Whole-system state: both stores plus the id-generation counter
(id.New…ID produces unique ids; uniqueness is modelled by a counter). -/
structure Sys where
  store : MemStore
  vec : VecStore
  nextID : Nat
  deriving DecidableEq

/-- Stage tag used in the engine's fail-ingest wrap ("chunk: …" etc.). -/
inductive IStage
  | load | chunk | embed | storeChunks | upsertVectors
  deriving DecidableEq

/-- Typed error taxonomy (errors.go). -/
inductive WErr
  | noStore | noEmbedder | noVectorStore | noChunker
  | emptyContent
  | collectionNotFound | documentNotFound
  | collectionAlreadyExists | documentAlreadyExists | duplicateDocument
  | createDocument (inner : WErr)
  deriving DecidableEq

/-- Model of hex(sha256(content)).  SHA-256 is modelled as an injective
function of the content; no claim in this development depends on the
digest format or on hash collisions. -/
def contentHash (content : Str) : Str := content

/-- Store.GetCollection: lookup by id, not-found as none. -/
def MemStore.getCollection (st : MemStore) (colID : Nat) : Option Collection :=
  st.collections.find? (fun c => c.id == colID)

/-- Store.CreateCollection: reject an existing id or an existing
(tenant, name) pair, else insert. -/
def MemStore.createCollection (st : MemStore) (col : Collection) :
    Except WErr MemStore :=
  if st.collections.any (fun c => c.id == col.id) then
    .error .collectionAlreadyExists
  else if st.collections.any
      (fun c => c.tenantID == col.tenantID && c.name == col.name) then
    .error .collectionAlreadyExists
  else .ok { st with collections := st.collections ++ [col] }

/-- Store.CreateDocument: reject an existing id, then reject a document
with the same (collection, content hash), else insert. -/
def MemStore.createDocument (st : MemStore) (doc : Document) :
    Except WErr MemStore :=
  if st.documents.any (fun d => d.id == doc.id) then
    .error .documentAlreadyExists
  else if st.documents.any (fun d =>
      d.collectionID == doc.collectionID && d.contentHash == doc.contentHash) then
    .error .duplicateDocument
  else .ok { st with documents := st.documents ++ [doc] }

/-- Store.UpdateDocument: replace the record with the same id; not-found
if absent. -/
def MemStore.updateDocument (st : MemStore) (doc : Document) :
    Except WErr MemStore :=
  if st.documents.any (fun d => d.id == doc.id) then
    .ok { st with documents :=
            st.documents.map (fun d => if d.id == doc.id then doc else d) }
  else .error .documentNotFound

/-- Store.CreateChunkBatch: map assignment per chunk (insert or replace
by id); the in-memory implementation never fails. -/
def MemStore.createChunkBatch (st : MemStore) (chs : List Chunk) : MemStore :=
  { st with chunks := chs.foldl (fun acc ch =>
      if acc.any (fun c => c.id == ch.id) then
        acc.map (fun c => if c.id == ch.id then ch else c)
      else acc ++ [ch]) st.chunks }

/-- Store.DeleteChunksByDocument (never fails). -/
def MemStore.deleteChunksByDocument (st : MemStore) (docID : Nat) : MemStore :=
  { st with chunks := st.chunks.filter (fun c => !(c.documentID == docID)) }

/-- Store.DeleteChunksByCollection (never fails). -/
def MemStore.deleteChunksByCollection (st : MemStore) (colID : Nat) : MemStore :=
  { st with chunks := st.chunks.filter (fun c => !(c.collectionID == colID)) }

/-- Store.DeleteDocumentsByCollection: removes the collection's documents
and, cascading, each removed document's chunks. -/
def MemStore.deleteDocumentsByCollection (st : MemStore) (colID : Nat) : MemStore :=
  let docIDs := (st.documents.filter (fun d => d.collectionID == colID)).map (·.id)
  { st with
    documents := st.documents.filter (fun d => !(d.collectionID == colID)),
    chunks := st.chunks.filter (fun c => !(docIDs.contains c.documentID)) }

/-- Store.DeleteDocument: not-found if absent, else remove the document
and cascade to its chunks. -/
def MemStore.deleteDocument (st : MemStore) (docID : Nat) : Except WErr MemStore :=
  if st.documents.any (fun d => d.id == docID) then
    .ok { st with
          documents := st.documents.filter (fun d => !(d.id == docID)),
          chunks := st.chunks.filter (fun c => !(c.documentID == docID)) }
  else .error .documentNotFound

/-- Store.DeleteCollection: not-found if absent, else remove the row and
cascade to the collection's documents and chunks. -/
def MemStore.deleteCollection (st : MemStore) (colID : Nat) : Except WErr MemStore :=
  if st.collections.any (fun c => c.id == colID) then
    .ok { st with
          collections := st.collections.filter (fun c => !(c.id == colID)),
          documents := st.documents.filter (fun d => !(d.collectionID == colID)),
          chunks := st.chunks.filter (fun c => !(c.collectionID == colID)) }
  else .error .collectionNotFound

/-- Go map read metadata[k]: the empty string when the key is absent. -/
def metaLookup (metadata : List (String × String)) (k : String) : String :=
  match metadata.find? (fun kv => kv.1 == k) with
  | some kv => kv.2
  | none => ""

/-- matchesFilter (vectorstore/memory): every filter pair must match. -/
def matchesFilter (metadata filter : List (String × String)) : Bool :=
  filter.all (fun kv => metaLookup metadata kv.1 == kv.2)

/-- VectorStore.Upsert: insert-or-replace by id; never fails in memory. -/
def VecStore.upsert (vs : VecStore) (es : List VEntry) : VecStore :=
  { entries := es.foldl (fun acc e =>
      if acc.any (fun x => x.id == e.id) then
        acc.map (fun x => if x.id == e.id then e else x)
      else acc ++ [e]) vs.entries }

/-- VectorStore.DeleteByMetadata: drop entries matching the filter. -/
def VecStore.deleteByMetadata (vs : VecStore) (filter : List (String × String)) :
    VecStore :=
  { entries := vs.entries.filter (fun e => !matchesFilter e.metadata filter) }

/-- Best-effort document update as the engine performs it: the error of
UpdateDocument is discarded and the store is left as it was. -/
def MemStore.updateDocumentBestEffort (st : MemStore) (doc : Document) : MemStore :=
  match st.updateDocument doc with
  | .ok st' => st'
  | .error _ => st

/-- Embedder.Embed: ordered texts to one vector each; a provider error is
Except.error.  Token counts are omitted: the engine never reads them. -/
abbrev Embedder := List Str → Except String (List (List ℚ))

/-- Loader contract: Supports plus Load. -/
structure Loader where
  supports : String → Bool
  load : Str → Except String Str

/-- Chunker.Chunk as the engine calls it: none models a call that never
returns (the chunker loop diverging), some carries the (chunks, error)
outcome. -/
abbrev ChunkerFn := Str → Option ChunkOptions → Option (Except String (List ChunkResult))

/-- Engine collaborator wiring and configuration defaults (weave.Config
plus the nil-checks on the Engine struct fields). -/
structure EngineCfg where
  storeConfigured : Bool
  vectorConfigured : Bool
  embedder : Option Embedder
  chunker : Option ChunkerFn
  loader : Option Loader
  defaultEmbeddingModel : String := "text-embedding-3-small"
  defaultChunkStrategy : String := "recursive"
  defaultChunkSize : Int := 512
  defaultChunkOverlap : Int := 50
  defaultTopK : Int := 10

/-- Lifecycle events the engine emits, with the payload fields claims
read (registry fan-out is modelled separately). -/
inductive Ev
  | collectionCreated (colID : Nat)
  | collectionDeleted (colID : Nat)
  | ingestStarted (colID docID : Nat)
  | ingestChunked (chunkIDs : List Nat)
  | ingestEmbedded (chunkIDs : List Nat)
  | ingestCompleted (colID : Nat) (docCount chunkCount : Nat)
  | ingestFailed (colID : Nat) (stage : IStage)
  | documentDeleted (docID : Nat)
  deriving DecidableEq

/-- Ingest request (engine.IngestInput). -/
structure IngestInput where
  collectionID : Nat
  title : String := ""
  source : String := ""
  sourceType : String := ""
  content : Str
  metadata : List (String × String) := []

/-- Ingest outcome (engine.IngestResult). -/
structure IngestResult where
  documentID : Nat
  chunkCount : Nat
  state : DocState
  deriving DecidableEq

/-- Go's (IngestResult, error) pair: ok, a typed error with nil result, or
the fail-ingest pair (failed result plus the wrapped stage error). -/
inductive IngestOutcome
  | ok (r : IngestResult)
  | err (e : WErr)
  | failedWith (r : IngestResult) (stage : IStage) (msg : String)
  deriving DecidableEq

/-- Engine.failIngest: best-effort mark the document failed with the error
text, emit ingest-failed, and surface the failed result with the error. -/
def Engine.failIngest (s : Sys) (evs : List Ev) (doc : Document) (colID : Nat)
    (stage : IStage) (msg : String) : Sys × List Ev × IngestOutcome :=
  let doc' := { doc with state := .failed, error := msg }
  ({ s with store := s.store.updateDocumentBestEffort doc' },
   evs ++ [.ingestFailed colID stage],
   .failedWith { documentID := doc.id, chunkCount := 0, state := .failed } stage msg)

/-- Chunk entities built from chunker results (engine.Ingest step 8):
fresh consecutive ids, stamped with collection, document, tenant, and the
chunker-reported index, offsets, token count and metadata. -/
def buildChunks (colID docID : Nat) (tenant : String) (firstID : Nat)
    (crs : List ChunkResult) : List Chunk :=
  crs.enum.map (fun p =>
    { id := firstID + p.1, documentID := docID, collectionID := colID,
      tenantID := tenant, content := p.2.content, index := p.2.index,
      startOffset := p.2.startOffset, endOffset := p.2.endOffset,
      tokenCount := p.2.tokenCount, metadata := p.2.metadata })

/-- Go map assignment meta[k] = v. -/
def mapSet (md : List (String × String)) (k v : String) : List (String × String) :=
  if md.any (fun kv => kv.1 == k) then
    md.map (fun kv => if kv.1 == k then (k, v) else kv)
  else md ++ [(k, v)]

/-- Base metadata overridden by the chunk's own metadata (the Go loop
`for k, v := range ch.Metadata { meta[k] = v }`). -/
def mergeMeta (base over : List (String × String)) : List (String × String) :=
  over.foldl (fun acc kv => mapSet acc kv.1 kv.2) base

/-- Vector entries built from chunks and embeddings (engine.Ingest step
10): entry id = chunk id, the indexing embedResults[i] panics when the
embedder returned fewer vectors than chunks (modelled as none). -/
def buildEntries (colID docID : Nat) (tenant : String)
    (chs : List Chunk) (vecs : List (List ℚ)) : Option (List VEntry) :=
  chs.enum.mapM (fun p => (vecs.get? p.1).map (fun v =>
    { id := p.2.id, vector := v, content := p.2.content,
      metadata := mergeMeta
        [("collection_id", toString colID), ("document_id", toString docID),
         ("tenant_id", tenant), ("chunk_index", toString p.2.index)]
        p.2.metadata }))

/-- Engine.Ingest (engine.go): collaborator nil-checks, empty-content
check, collection lookup, document creation (duplicate detection),
ingest-started, best-effort processing transition, optional loader,
chunking, chunk-entity build, ingest-chunked, embedding, ingest-embedded,
vector-entry build, chunk-batch persist, vector upsert, best-effort ready
transition, ingest-completed.  The in-memory CreateChunkBatch and Upsert
never fail, so the corresponding fail-ingest branches of the Go code are
unreachable in this composition.  A none result models a call that never
returns (the chunker diverging or the Go code panicking). -/
def Engine.ingest (cfg : EngineCfg) (tenant : String) (s : Sys)
    (input : IngestInput) : Option (Sys × List Ev × IngestOutcome) :=
  if ¬ cfg.storeConfigured then some (s, [], .err .noStore) else
  match cfg.embedder with
  | none => some (s, [], .err .noEmbedder)
  | some embed =>
  if ¬ cfg.vectorConfigured then some (s, [], .err .noVectorStore) else
  match cfg.chunker with
  | none => some (s, [], .err .noChunker)
  | some chunkFn =>
  if input.content.isEmpty then some (s, [], .err .emptyContent) else
  match s.store.getCollection input.collectionID with
  | none => some (s, [], .err .collectionNotFound)
  | some col =>
  let docID := s.nextID
  let s1 : Sys := { s with nextID := s.nextID + 1 }
  let doc : Document := {
    id := docID, collectionID := input.collectionID,
    tenantID := tenant, title := input.title, source := input.source,
    sourceType := input.sourceType, contentHash := contentHash input.content,
    contentLength := input.content.length, chunkCount := 0,
    metadata := input.metadata, state := .pending, error := "" }
  match s1.store.createDocument doc with
  | .error e => some (s1, [], .err (.createDocument e))
  | .ok st2 =>
  let s2 : Sys := { s1 with store := st2 }
  let evs0 : List Ev := [.ingestStarted input.collectionID docID]
  let docP := { doc with state := .processing }
  let s3 : Sys := { s2 with store := s2.store.updateDocumentBestEffort docP }
  let loadRes : Except String Str := match cfg.loader with
    | some ld =>
      if input.sourceType != "" && ld.supports input.sourceType then
        ld.load input.content
      else .ok input.content
    | none => .ok input.content
  match loadRes with
  | .error msg => some (Engine.failIngest s3 evs0 docP input.collectionID .load msg)
  | .ok content =>
  match chunkFn content (some {
      chunkSize := col.chunkSize,
      chunkOverlap := col.chunkOverlap, strategy := col.chunkStrategy }) with
  | none => none
  | some (.error msg) =>
    some (Engine.failIngest s3 evs0 docP input.collectionID .chunk msg)
  | some (.ok chunkResults) =>
  let chs := buildChunks input.collectionID docID tenant s3.nextID chunkResults
  let s4 : Sys := { s3 with nextID := s3.nextID + chunkResults.length }
  let evs1 := evs0 ++ [.ingestChunked (chs.map (·.id))]
  match embed (chs.map (·.content)) with
  | .error msg => some (Engine.failIngest s4 evs1 docP input.collectionID .embed msg)
  | .ok vecs =>
  let evs2 := evs1 ++ [.ingestEmbedded (chs.map (·.id))]
  match buildEntries input.collectionID docID tenant chs vecs with
  | none => none
  | some entries =>
  let s5 : Sys := { s4 with store := s4.store.createChunkBatch chs }
  let s6 : Sys := { s5 with vec := s5.vec.upsert entries }
  let docR := { docP with state := .ready, chunkCount := (chs.length : Int) }
  let s7 : Sys := { s6 with store := s6.store.updateDocumentBestEffort docR }
  some (s7, evs2 ++ [.ingestCompleted input.collectionID 1 chs.length],
        .ok { documentID := docID, chunkCount := chs.length, state := .ready })

/-- Collection creation request: zero-valued fields are filled by the
engine from the scope context and configuration defaults. -/
structure CollectionInput where
  id : Option Nat := none
  name : String
  tenantID : String := ""
  appID : String := ""
  embeddingModel : String := ""
  embeddingDims : Int := 0
  chunkStrategy : String := ""
  chunkSize : Int := 0
  chunkOverlap : Int := 0

/-- Engine.CreateCollection: fill blank id, tenant, app, embedding model,
chunk strategy, size and overlap, persist, emit collection-created. -/
def Engine.createCollection (cfg : EngineCfg) (tenantCtx appCtx : String)
    (s : Sys) (col : CollectionInput) : Sys × List Ev × Except WErr Collection :=
  if ¬ cfg.storeConfigured then (s, [], .error .noStore) else
  let idAndSys : Nat × Sys := match col.id with
    | some i => (i, s)
    | none => (s.nextID, { s with nextID := s.nextID + 1 })
  let c : Collection := {
    id := idAndSys.1,
    name := col.name,
    tenantID := if col.tenantID == "" then tenantCtx else col.tenantID,
    appID := if col.appID == "" then appCtx else col.appID,
    embeddingModel := if col.embeddingModel == "" then cfg.defaultEmbeddingModel
                      else col.embeddingModel,
    embeddingDims := col.embeddingDims,
    chunkStrategy := if col.chunkStrategy == "" then cfg.defaultChunkStrategy
                     else col.chunkStrategy,
    chunkSize := if col.chunkSize == 0 then cfg.defaultChunkSize else col.chunkSize,
    chunkOverlap := if col.chunkOverlap == 0 then cfg.defaultChunkOverlap
                    else col.chunkOverlap }
  match idAndSys.2.store.createCollection c with
  | .error e => (idAndSys.2, [], .error e)
  | .ok st => ({ idAndSys.2 with store := st }, [.collectionCreated c.id], .ok c)

/-- Deterministic embedder used for concrete scenarios: one fixed
4-dimensional vector per input text, never failing. -/
def constEmbedder : Embedder := fun ts => .ok (ts.map (fun _ => [(1 : ℚ), 0, 0, 0]))

/-- Engine wired with the in-memory stores, the constant embedder and the
fixed chunker at the given fuel. -/
def fixedCfg (fuel : Nat) : EngineCfg := {
  storeConfigured := true, vectorConfigured := true,
  embedder := some constEmbedder,
  chunker := some (fun t o => (fixedChunk fuel t o).map Except.ok),
  loader := none }

/-- Empty system: no collections, documents, chunks or vectors. -/
def emptySys : Sys := { store := ⟨[], [], []⟩, vec := ⟨[]⟩, nextID := 0 }

/-- Collection request of scenario 1: name docs, embedding model e, dims
4, strategy fixed, chunk_size 20, chunk_overlap 0. -/
def docsCollectionInput : CollectionInput := {
  name := "docs", embeddingModel := "e", embeddingDims := 4,
  chunkStrategy := "fixed", chunkSize := 20, chunkOverlap := 0 }

/-- System after create_collection of scenario 1 under tenant T1 (the
created collection has id 0; CreateCollection does not read the chunker,
so the fuel-0 configuration is used). -/
def scenarioSys : Sys :=
  (Engine.createCollection (fixedCfg 0) "T1" "" emptySys docsCollectionInput).1

/-- Content of scenario 1 (35 bytes). -/
def weaveText : Str := "alpha beta gamma delta epsilon zeta".data

/-- Ingest input of scenario 1. -/
def weaveInput : IngestInput := { collectionID := 0, content := weaveText }

/-- Scenario 1 ingest with the chunker call's outcome abstracted: the
engine pipeline applied to a given chunker result. -/
def scenarioIngestWith (o : Option (List ChunkResult)) :
    Option (Sys × List Ev × IngestOutcome) :=
  Engine.ingest { fixedCfg 0 with chunker := some (fun _ _ => o.map Except.ok) }
    "T1" scenarioSys weaveInput

/-- Identity-relevant projection of a document: its id and its
deduplication key (collection id, content hash). -/
def docKey (d : Document) : Nat × Nat × Str := (d.id, d.collectionID, d.contentHash)

/-- Whitespace-only single-space ingest into the scenario collection. -/
def whitespaceRun : Option (Sys × List Ev × IngestOutcome) :=
  Engine.ingest (fixedCfg 1) "T1" scenarioSys { collectionID := 0, content := [' '] }

/-- Fixed-strategy collection with overlap 0, placed directly in the
store (bypassing the CreateCollection default-fill). -/
def colFixed0 : Collection := {
  id := 0, name := "docs", tenantID := "T1", appID := "",
  embeddingModel := "e", embeddingDims := 4, chunkStrategy := "fixed",
  chunkSize := 20, chunkOverlap := 0 }

/-- System holding just the zero-overlap fixed collection. -/
def dupSys : Sys := { store := ⟨[colFixed0], [], []⟩, vec := ⟨[]⟩, nextID := 1 }

/-- Two-byte ingest request for the duplicate-detection witness. -/
def dupInput : IngestInput := { collectionID := 0, content := "ab".data }

/-- System state after the first successful ingest of dupInput. -/
def dupSys1 : Sys :=
  ((Engine.ingest (fixedCfg 2) "T1" dupSys dupInput).getD
    (dupSys, [], .err .noStore)).1

/-- Observable operations of the engine's delete paths, in call order:
vector-store deletions by metadata filter, metadata-store deletions, and
the emitted lifecycle events. -/
inductive DelOp
  | vecDeleteByMetadata (key : String) (entity : Nat)
  | delChunksByDocument (docID : Nat)
  | delDocument (docID : Nat)
  | delChunksByCollection (colID : Nat)
  | delDocumentsByCollection (colID : Nat)
  | delCollection (colID : Nat)
  | emitDocumentDeleted (docID : Nat)
  | emitCollectionDeleted (colID : Nat)
  deriving DecidableEq

/-- Engine.DeleteDocument (engine.go): vector entries by document filter
first (best-effort), then chunks, then the document row, then the
document-deleted event.  The trace records the operations in order. -/
def Engine.deleteDocument (c : EngineCfg) (s : Sys) (docID : Nat) :
    Sys × List DelOp × Except WErr Unit :=
  if ¬ c.storeConfigured then (s, [], .error .noStore) else
  let step1 : Sys × List DelOp :=
    if c.vectorConfigured then
      ({ s with vec := s.vec.deleteByMetadata [("document_id", toString docID)] },
       [.vecDeleteByMetadata "document_id" docID])
    else (s, [])
  let s2 : Sys := { step1.1 with store := step1.1.store.deleteChunksByDocument docID }
  let ops2 := step1.2 ++ [.delChunksByDocument docID]
  match s2.store.deleteDocument docID with
  | .error e => (s2, ops2, .error e)
  | .ok st => ({ s2 with store := st },
               ops2 ++ [.delDocument docID, .emitDocumentDeleted docID], .ok ())

/-- Engine.DeleteCollection (engine.go): chunks by collection, documents
by collection, vector entries by collection filter (best-effort), the
collection row, then the collection-deleted event. -/
def Engine.deleteCollection (c : EngineCfg) (s : Sys) (colID : Nat) :
    Sys × List DelOp × Except WErr Unit :=
  if ¬ c.storeConfigured then (s, [], .error .noStore) else
  let s1 : Sys := { s with store := s.store.deleteChunksByCollection colID }
  let s2 : Sys := { s1 with store := s1.store.deleteDocumentsByCollection colID }
  let ops2 : List DelOp := [.delChunksByCollection colID, .delDocumentsByCollection colID]
  let step3 : Sys × List DelOp :=
    if c.vectorConfigured then
      ({ s2 with vec := s2.vec.deleteByMetadata [("collection_id", toString colID)] },
       ops2 ++ [.vecDeleteByMetadata "collection_id" colID])
    else (s2, ops2)
  match step3.1.store.deleteCollection colID with
  | .error e => (step3.1, step3.2, .error e)
  | .ok st => ({ step3.1 with store := st },
               step3.2 ++ [.delCollection colID, .emitCollectionDeleted colID], .ok ())

/-- Metadata-store deletions among the delete-path operations. -/
def isMetaDelete : DelOp → Bool
  | .delChunksByDocument _ => true
  | .delDocument _ => true
  | .delChunksByCollection _ => true
  | .delDocumentsByCollection _ => true
  | .delCollection _ => true
  | _ => false

/-- Vector-store deletions among the delete-path operations. -/
def isVecDelete : DelOp → Bool
  | .vecDeleteByMetadata _ _ => true
  | _ => false

/-- The claim's ordering: after any vector-store deletion no
metadata-store deletion may follow (metadata first, vector store last). -/
def noMetaAfterVec : List DelOp → Bool
  | [] => true
  | op :: rest =>
    ((!isVecDelete op) || rest.all (fun o => !isMetaDelete o)) && noMetaAfterVec rest

/-- Ready document used by the deletion scenarios. -/
def delDoc1 : Document := {
  id := 1, collectionID := 0, tenantID := "T1", title := "", source := "",
  sourceType := "", contentHash := "ab".data, contentLength := 2,
  chunkCount := 1, metadata := [], state := .ready, error := "" }

/-- System holding one collection, one document and no chunks. -/
def delSys : Sys := { store := ⟨[colFixed0], [delDoc1], []⟩, vec := ⟨[]⟩, nextID := 2 }

/-- Integer square root by bounded search (kernel-evaluable floor sqrt). -/
def natSqrt (n : Nat) : Nat := Nat.findGreatest (fun m => m * m ≤ n) n

/-- Model of math.Sqrt on rationals: floor square roots of numerator and denominator, exact whenever both are perfect squares — which covers every concrete radicand in this file. -/
def sqrtQ (q : ℚ) : ℚ := Rat.divInt (natSqrt q.num.toNat : Int) (natSqrt q.den : Int)

/-- Model of the memory store's cosineSimilarity: dot product over the product of norms, 0 for mismatched or empty vectors and for zero norms. -/
def cosineSimilarity (a b : List ℚ) : ℚ :=
  if a.length ≠ b.length ∨ a.length = 0 then 0
  else
    let dot := (a.zip b).foldl (fun acc p => acc + p.1 * p.2) 0
    let normA := a.foldl (fun acc x => acc + x * x) 0
    let normB := b.foldl (fun acc x => acc + x * x) 0
    if normA = 0 ∨ normB = 0 then 0
    else dot / (sqrtQ normA * sqrtQ normB)

/-- Model of weave.SearchOptions as the memory vector store reads it. -/
structure SearchOptions where
  topK : Int := 0
  filter : List (String × String) := []
  tenantKey : String := ""
  minScore : ℚ := 0

/-- Model of weave.SearchResult: the entry together with its score. -/
structure SearchResult where
  entry : VEntry
  score : ℚ
  deriving DecidableEq

/-- One insertion step of the descending sort: place r before the first strictly smaller score, after all earlier ties. -/
def insertDescBy (r : SearchResult) : List SearchResult → List SearchResult
  | [] => [r]
  | x :: xs => if r.score > x.score then r :: x :: xs else x :: insertDescBy r xs

/-- Model of the descending sort in memory.Store.Search (insertion sort, non-strict descending order). -/
def sortDesc (l : List SearchResult) : List SearchResult := l.foldr insertDescBy []

/-- Metadata-filter and tenant checks of memory.Store.Search on one entry. -/
def searchPass (opts : Option SearchOptions) (e : VEntry) : Bool :=
  (match opts with
   | some o => o.filter.isEmpty || matchesFilter e.metadata o.filter
   | none => true) &&
  (match opts with
   | some o => o.tenantKey == "" || metaLookup e.metadata "tenant_id" == o.tenantKey
   | none => true)

/-- Min-score check of memory.Store.Search: a score is dropped only when opts.MinScore > 0 and the score is below it. -/
def scorePass (opts : Option SearchOptions) (score : ℚ) : Bool :=
  match opts with
  | some o => !(o.minScore > 0 && score < o.minScore)
  | none => true

/-- Model of memory.Store.Search: filter entries, score them against the query vector, apply the conditional min-score check, sort descending and take topK (default 10 when topK is not positive). -/
def memSearch (vs : VecStore) (vector : List ℚ) (opts : Option SearchOptions) :
    List SearchResult :=
  let topK : Int := match opts with
    | some o => if o.topK > 0 then o.topK else 10
    | none => 10
  let results := vs.entries.filterMap (fun e =>
    if searchPass opts e then
      let score := cosineSimilarity vector e.vector
      if scorePass opts score then some ⟨e, score⟩ else none
    else none)
  (sortDesc results).take topK.toNat

/-- Model of the retriever-side cosine helper, the same arithmetic as the store's. -/
def cosine (a b : List ℚ) : ℚ := cosineSimilarity a b

/-- Model of weave.RetrieveOptions as MMRRetriever reads them. -/
structure ROptions where
  collectionID : Option Nat := none
  tenantKey : String := ""
  topK : Int := 0
  minScore : ℚ := 0
  filter : List (String × String) := []

/-- Model of weave.RetrieveResult: content, metadata and score. -/
structure RResult where
  content : Str
  metadata : List (String × String)
  score : ℚ
  deriving DecidableEq

/-- MMR objective of one candidate as the code computes it: lambda times relevance minus (1 − lambda) times a max-fold over cosines to the selected vectors that starts from 0. -/
def mmrScore (lam : ℚ) (selVecs : List (List ℚ)) (c : SearchResult) : ℚ :=
  lam * c.score
    - (1 - lam) * (selVecs.foldl (fun m sv => max m (cosine c.entry.vector sv)) 0)

/-- One comparison of the best-candidate scan: a strictly greater score replaces the current best, so ties keep the earlier candidate. -/
def pickStep (g : SearchResult → ℚ) (best : Option (Nat × SearchResult))
    (p : Nat × SearchResult) : Option (Nat × SearchResult) :=
  match best with
  | none => some p
  | some b => if g p.2 > g b.2 then some p else best

/-- Model of the inner candidate scan of MMRRetriever.Retrieve: fold over position-indexed candidates, skipping already-selected positions. -/
def mmrPick (lam : ℚ) (cands : List SearchResult) (used : List Nat)
    (selVecs : List (List ℚ)) : Option (Nat × SearchResult) :=
  cands.enum.foldl (fun best p =>
    if used.contains p.1 then best
    else pickStep (mmrScore lam selVecs) best p)
    none

/-- Model of the outer selection loop of MMRRetriever.Retrieve, running while fewer than topK candidates are selected and candidates remain. -/
def mmrLoop (lam : ℚ) (cands : List SearchResult) :
    Nat → List (Nat × SearchResult) → List (Nat × SearchResult)
  | 0, sel => sel
  | n + 1, sel =>
    if sel.length < cands.length then
      match mmrPick lam cands (sel.map (fun q => q.1))
          (sel.map (fun q => q.2.entry.vector)) with
      | none => sel
      | some p => mmrLoop lam cands n (sel ++ [p])
    else sel

/-- Model of the candidate-count computation: 3 times topK, raised to a floor of 20. -/
def candidateCount (topK : Int) : Int := if topK * 3 < 20 then 20 else topK * 3

/-- Search options MMRRetriever passes to the vector store: candidateCount candidates, collection filter, tenant key, and no min-score. -/
def mmrSearchOpts (opts : ROptions) : SearchOptions := {
  topK := candidateCount opts.topK,
  filter := match opts.collectionID with
    | some cid => mapSet opts.filter "collection_id" (toString cid)
    | none => opts.filter,
  tenantKey := if opts.tenantKey != "" then opts.tenantKey else "",
  minScore := 0 }

/-- Model of MMRRetriever.Retrieve: embed the query, fetch candidates by similarity, run the MMR selection loop, and return the selections in selection order with their original relevance scores. -/
def mmrRetrieve (lam : ℚ) (vs : VecStore) (embed : Embedder) (query : Str)
    (opts : ROptions) : Except String (List RResult) :=
  match embed [query] with
  | .error msg => .error msg
  | .ok embedResults =>
    match embedResults with
    | [] => .ok []
    | queryVec :: _ =>
      let candidates := memSearch vs queryVec (some (mmrSearchOpts opts))
      if candidates.isEmpty then .ok []
      else
        .ok ((mmrLoop lam candidates opts.topK.toNat []).map (fun p =>
          { content := p.2.entry.content, metadata := p.2.entry.metadata,
            score := p.2.score }))

/-- Spec side: the not-yet-selected candidates, paired with their ranks. -/
def specAvail (cands : List SearchResult) (used : List Nat) :
    List (Nat × SearchResult) :=
  cands.enum.filter (fun p => !(used.contains p.1))

/-- Spec side: the literal maximum cosine similarity to the selected vectors, 0 when nothing is selected yet. -/
def specMaxSim (v : List ℚ) (selVecs : List (List ℚ)) : ℚ :=
  ((selVecs.map (fun sv => cosine v sv)).max?).getD 0

/-- Spec-side score with the similarity term clamped below at 0, matching the code's fold that starts from 0. -/
def specScoreClamped (lam : ℚ) (selVecs : List (List ℚ)) (c : SearchResult) : ℚ :=
  lam * c.score - (1 - lam) * max 0 (specMaxSim c.entry.vector selVecs)

/-- Spec-side score exactly as the spec words it: lambda times relevance minus (1 − lambda) times the unclamped maximum similarity. -/
def specScoreTrue (lam : ℚ) (selVecs : List (List ℚ)) (c : SearchResult) : ℚ :=
  lam * c.score - (1 - lam) * specMaxSim c.entry.vector selVecs

/-- Spec-side pick: the first available candidate attaining the maximal score. -/
def specPickBy (g : SearchResult → ℚ) (cands : List SearchResult)
    (used : List Nat) : Option (Nat × SearchResult) :=
  (specAvail cands used).find? (fun p =>
    (specAvail cands used).all (fun q => decide (g q.2 ≤ g p.2)))

/-- Spec-side selection loop, parameterised by the scoring function. -/
def specLoopBy (g : List (List ℚ) → SearchResult → ℚ) (cands : List SearchResult) :
    Nat → List (Nat × SearchResult) → List (Nat × SearchResult)
  | 0, sel => sel
  | n + 1, sel =>
    if sel.length < cands.length then
      match specPickBy (g (sel.map (fun q => q.2.entry.vector))) cands
          (sel.map (fun q => q.1)) with
      | none => sel
      | some p => specLoopBy g cands n (sel ++ [p])
    else sel

/-- Spec-side candidate-fetch options, with the count written literally as max 20 (3 times top_k). -/
def specMMROpts (opts : ROptions) : SearchOptions :=
  { mmrSearchOpts opts with topK := max 20 (opts.topK * 3) }

/-- Spec-side MMR retrieval with the clamped score: the refinement target the code actually meets. -/
def specMMRRetrieveClamped (lam : ℚ) (vs : VecStore) (embed : Embedder)
    (query : Str) (opts : ROptions) : Except String (List RResult) :=
  match embed [query] with
  | .error msg => .error msg
  | .ok embedResults =>
    match embedResults with
    | [] => .ok []
    | queryVec :: _ =>
      let candidates := memSearch vs queryVec (some (specMMROpts opts))
      if candidates.isEmpty then .ok []
      else
        .ok ((specLoopBy (fun selVecs c => specScoreClamped lam selVecs c)
            candidates opts.topK.toNat []).map (fun p =>
          { content := p.2.entry.content, metadata := p.2.entry.metadata,
            score := p.2.score }))

/-- Spec-side MMR retrieval with the spec's literal unclamped score. -/
def specMMRRetrieveTrue (lam : ℚ) (vs : VecStore) (embed : Embedder)
    (query : Str) (opts : ROptions) : Except String (List RResult) :=
  match embed [query] with
  | .error msg => .error msg
  | .ok embedResults =>
    match embedResults with
    | [] => .ok []
    | queryVec :: _ =>
      let candidates := memSearch vs queryVec (some (specMMROpts opts))
      if candidates.isEmpty then .ok []
      else
        .ok ((specLoopBy (fun selVecs c => specScoreTrue lam selVecs c)
            candidates opts.topK.toNat []).map (fun p =>
          { content := p.2.entry.content, metadata := p.2.entry.metadata,
            score := p.2.score }))

/-- Vector store for the unclamped-score counterexample: A and B orthogonal, X of negative relevance. -/
def mmrVS : VecStore := ⟨[⟨1, [1, 0], "A".data, []⟩, ⟨2, [0, 1], "B".data, []⟩,
  ⟨3, [-4, 3], "X".data, []⟩]⟩

/-- Embedder returning the fixed query vector used by the counterexample. -/
def mmrEmb : Embedder := fun _ => .ok [[1, 0]]

/-- Retrieve options asking for two results. -/
def mmrOpts : ROptions := { topK := 2 }

/-- Store with one entry opposite to the query, so its score is −1. -/
def negVS : VecStore := ⟨[⟨1, [-1, 0], "N".data, []⟩]⟩

/-- Search options with min_score 0, under which the claim still demands non-negative scores. -/
def zeroMinOpts : SearchOptions := { topK := 5, minScore := 0 }

/-- Store with two entries equal to the query, producing two tied scores of 1. -/
def tieVS : VecStore := ⟨[⟨1, [1, 0], "t1".data, []⟩, ⟨2, [1, 0], "t2".data, []⟩]⟩

/-- Search options for the tie example. -/
def tieOpts : SearchOptions := { topK := 5 }

/-- Store for the MMR ordering example, with relevances 3/5, 4/5 and 0 to the query. -/
def ndVS : VecStore := ⟨[⟨1, [3, 4, 0], "v1".data, []⟩, ⟨2, [4, 3, 0], "v2".data, []⟩,
  ⟨3, [0, 0, 1], "v3".data, []⟩]⟩

/-- Embedder whose query vector makes the first two entries similar to each other. -/
def ndEmb : Embedder := fun _ => .ok [[5, 0, 0]]

/-- MMR options asking for all three entries. -/
def ndOpts : ROptions := { topK := 3 }

/-- Search options for the direct-path witness: top_k 5 and min_score 1. -/
def wOpts : SearchOptions := { topK := 5, minScore := 1 }

/-- Lifecycle hook: takes the event payload, returns an error text or none
(Go: a hook method returning error or nil). -/
def Hook (α : Type) : Type := α → Option String

/-- Cache entry pairing a hook with the extension name captured at
registration time (the named entry types of the ext package). -/
structure NamedHook (α : Type) where
  name : String
  hook : Hook α

/-- Model of an extension: a name and the optional lifecycle hooks it
implements (a Go type assertion succeeding is a some field). Payloads
follow the Go signatures, with ids as Nat, counts and durations as Int. -/
structure WExt where
  name : String
  onCollectionCreated : Option (Hook Collection) := none
  onCollectionDeleted : Option (Hook Nat) := none
  onIngestStarted : Option (Hook (Nat × List Document)) := none
  onIngestChunked : Option (Hook (List Chunk)) := none
  onIngestEmbedded : Option (Hook (List Chunk)) := none
  onIngestCompleted : Option (Hook (Nat × Int × Int × Int)) := none
  onIngestFailed : Option (Hook (Nat × String)) := none
  onRetrievalStarted : Option (Hook (Nat × String)) := none
  onRetrievalCompleted : Option (Hook (Nat × Int × Int)) := none
  onRetrievalFailed : Option (Hook (Nat × String)) := none
  onDocumentDeleted : Option (Hook Nat) := none
  onReindexStarted : Option (Hook Nat) := none
  onReindexCompleted : Option (Hook (Nat × Int)) := none
  onShutdown : Option (Hook Unit) := none

/-- Model of ext.Registry: the registered extensions plus the fourteen
type-cached hook slices. -/
structure Registry where
  extensions : List WExt := []
  collectionCreated : List (NamedHook Collection) := []
  collectionDeleted : List (NamedHook Nat) := []
  ingestStarted : List (NamedHook (Nat × List Document)) := []
  ingestChunked : List (NamedHook (List Chunk)) := []
  ingestEmbedded : List (NamedHook (List Chunk)) := []
  ingestCompleted : List (NamedHook (Nat × Int × Int × Int)) := []
  ingestFailed : List (NamedHook (Nat × String)) := []
  retrievalStarted : List (NamedHook (Nat × String)) := []
  retrievalCompleted : List (NamedHook (Nat × Int × Int)) := []
  retrievalFailed : List (NamedHook (Nat × String)) := []
  documentDeleted : List (NamedHook Nat) := []
  reindexStarted : List (NamedHook Nat) := []
  reindexCompleted : List (NamedHook (Nat × Int)) := []
  shutdown : List (NamedHook Unit) := []

/-- Appends a named hook to a cache when the extension implements it (one
type-assertion block of Registry.Register). -/
def addIf {α : Type} (cache : List (NamedHook α)) (n : String) :
    Option (Hook α) → List (NamedHook α)
  | some h => cache ++ [⟨n, h⟩]
  | none => cache

/-- Model of Registry.Register: append the extension and type-cache each
hook it implements. -/
def Registry.register (r : Registry) (e : WExt) : Registry := {
  extensions := r.extensions ++ [e],
  collectionCreated := addIf r.collectionCreated e.name e.onCollectionCreated,
  collectionDeleted := addIf r.collectionDeleted e.name e.onCollectionDeleted,
  ingestStarted := addIf r.ingestStarted e.name e.onIngestStarted,
  ingestChunked := addIf r.ingestChunked e.name e.onIngestChunked,
  ingestEmbedded := addIf r.ingestEmbedded e.name e.onIngestEmbedded,
  ingestCompleted := addIf r.ingestCompleted e.name e.onIngestCompleted,
  ingestFailed := addIf r.ingestFailed e.name e.onIngestFailed,
  retrievalStarted := addIf r.retrievalStarted e.name e.onRetrievalStarted,
  retrievalCompleted := addIf r.retrievalCompleted e.name e.onRetrievalCompleted,
  retrievalFailed := addIf r.retrievalFailed e.name e.onRetrievalFailed,
  documentDeleted := addIf r.documentDeleted e.name e.onDocumentDeleted,
  reindexStarted := addIf r.reindexStarted e.name e.onReindexStarted,
  reindexCompleted := addIf r.reindexCompleted e.name e.onReindexCompleted,
  shutdown := addIf r.shutdown e.name e.onShutdown }

/-- Registers a list of extensions, in order, into an empty registry. -/
def registerAll (es : List WExt) : Registry := es.foldl Registry.register {}

/-- Record a hook error leaves in the log (Registry.logHookError): a WARN
record carrying the message, hook name, extension name and error text. -/
structure LogRec where
  level : String
  msg : String
  hookName : String
  extName : String
  errText : String
  deriving DecidableEq

/-- Model of Registry.logHookError. -/
def logHookError (hookName extName errText : String) : LogRec :=
  ⟨"WARN", "extension hook error", hookName, extName, errText⟩

/-- Model of one Emit method's loop: call each cached hook in order and
collect a log record for each returned error. The Go method has no return
value, so the log is the loop's only output: hook errors reach neither the
caller nor the emitting operation's result. -/
def emitHooks {α : Type} (entries : List (NamedHook α)) (hookName : String)
    (a : α) : List LogRec :=
  entries.foldl (fun logs e =>
    match e.hook a with
    | some errText => logs ++ [logHookError hookName e.name errText]
    | none => logs) []

/-- Named hooks an extension list contributes for one cache accessor. -/
def cacheOf {α : Type} (g : WExt → Option (Hook α)) (es : List WExt) :
    List (NamedHook α) :=
  es.filterMap (fun e => (g e).map (fun h => ⟨e.name, h⟩))

/-- With a positive overlap the fixed-chunker loop never leaves the state
start = 0 on an 8-character input with charSize = charOverlap = 4: the
new start is end − charOverlap = 4 − 4 = 0 again and the break guard
start ≥ end never fires. -/
theorem fixedChunkLoop_stuck (fuel : Nat) :
    ∀ (idx : Nat) (acc : List ChunkResult),
      fixedChunkLoop (List.replicate 8 'a') 4 4 fuel 0 idx acc = none := by
  induction fuel with
  | zero => intro idx acc; rfl
  | succ n ih =>
    intro idx acc
    show fixedChunkLoop (List.replicate 8 'a') 4 4 (n + 1) 0 idx acc = none
    rw [fixedChunkLoop]
    norm_num
    exact ih (idx + 1) _

/-- CreateCollection fills a zero chunk_overlap from the configuration
default: the scenario-1 collection ends up with chunk_overlap = 50, not
the requested 0 (zero is indistinguishable from unset). -/
theorem scenario_collection_overlap_defaulted :
    (scenarioSys.store.getCollection 0).map
      (fun c => (c.chunkSize, c.chunkOverlap, c.chunkStrategy))
      = some (20, 50, "fixed") := by decide

/-- Once the fixed-chunker loop reaches a negative start on the 35-byte
scenario text, the Go slice expression text[start:end] panics, so no fuel
produces a normal result from that state. -/
theorem fixedChunkLoop_weave_neg :
    ∀ (f idx : Nat) (acc : List ChunkResult),
      fixedChunkLoop weaveText 80 200 f (-165) idx acc = none := by
  intro f idx acc
  match f with
  | 0 => rfl
  | n + 1 =>
    rw [fixedChunkLoop]
    norm_num [(by decide : ((weaveText.length : Int)) = 35)]

/-- After its first chunk [0, 35) the fixed-chunker loop restarts at
35 − 4·50 = −165: a negative start, where Go panics; hence the chunker
call never returns normally for any fuel. -/
theorem fixedChunk_scenario_diverges (fuel : Nat) :
    fixedChunk fuel weaveText (some ⟨20, 50, "fixed"⟩) = none := by
  have ht : goTrimSpace weaveText = weaveText := by decide
  show (if (goTrimSpace weaveText).isEmpty then some []
    else fixedChunkLoop (goTrimSpace weaveText) 80 200 fuel 0 0 []) = none
  rw [ht]
  have hne : weaveText.isEmpty = false := by decide
  rw [hne]
  simp only [Bool.false_eq_true, if_false]
  match fuel with
  | 0 => rfl
  | n + 1 =>
    rw [fixedChunkLoop]
    norm_num [(by decide : ((weaveText.length : Int)) = 35)]
    exact fixedChunkLoop_weave_neg n 1 _

/-- Best-effort updates never touch the collections map. -/
theorem updateBestEffort_collections (st : MemStore) (d : Document) :
    (st.updateDocumentBestEffort d).collections = st.collections := by
  unfold MemStore.updateDocumentBestEffort MemStore.updateDocument
  by_cases h : st.documents.any (fun x => x.id == d.id) <;> simp [h]

/-- Best-effort updates never touch the chunks map. -/
theorem updateBestEffort_chunks (st : MemStore) (d : Document) :
    (st.updateDocumentBestEffort d).chunks = st.chunks := by
  unfold MemStore.updateDocumentBestEffort MemStore.updateDocument
  by_cases h : st.documents.any (fun x => x.id == d.id) <;> simp [h]

/-- Any projection that cannot tell the update from what it replaced is
preserved by a best-effort update. -/
theorem updateBestEffort_map {κ : Type} (st : MemStore) (d : Document)
    (f : Document → κ) (hf : ∀ x ∈ st.documents, x.id = d.id → f x = f d) :
    (st.updateDocumentBestEffort d).documents.map f = st.documents.map f := by
  unfold MemStore.updateDocumentBestEffort MemStore.updateDocument
  by_cases h : st.documents.any (fun x => x.id == d.id) <;> simp [h]
  intro x hx
  by_cases hid : x.id = d.id
  · simp [hid, hf x hx hid]
  · simp [hid]

/-- CreateDocument success: the guards were false and the document was
appended. -/
theorem createDocument_ok (st st' : MemStore) (d : Document)
    (h : st.createDocument d = .ok st') :
    st' = { st with documents := st.documents ++ [d] } ∧
      st.documents.any (fun x => x.id == d.id) = false ∧
      st.documents.any (fun x =>
        x.collectionID == d.collectionID && x.contentHash == d.contentHash) = false := by
  unfold MemStore.createDocument at h
  split_ifs at h with h1 h2
  cases h
  exact ⟨rfl, by simpa using h1, by simpa using h2⟩

/-- CreateChunkBatch never touches the documents map. -/
theorem createChunkBatch_documents (st : MemStore) (chs : List Chunk) :
    (st.createChunkBatch chs).documents = st.documents := rfl

/-- CreateChunkBatch never touches the collections map. -/
theorem createChunkBatch_collections (st : MemStore) (chs : List Chunk) :
    (st.createChunkBatch chs).collections = st.collections := rfl

/-- Documents present after a best-effort update are old documents or the
update itself. -/
theorem updateBestEffort_mem (st : MemStore) (d x : Document)
    (hx : x ∈ (st.updateDocumentBestEffort d).documents) :
    x ∈ st.documents ∨ x = d := by
  unfold MemStore.updateDocumentBestEffort MemStore.updateDocument at hx
  by_cases h : st.documents.any (fun y => y.id == d.id) <;> simp [h] at hx
  · obtain ⟨y, hy, hxy⟩ := hx
    by_cases hid : y.id = d.id
    · right
      simp [hid] at hxy
      exact hxy.symm
    · left
      simp [hid] at hxy
      exact hxy ▸ hy
  · exact Or.inl hx

/-- Ingest on a system that already holds a document with the same
(collection, content hash): the CreateDocument guard fires and the call
returns the wrapped duplicate-document error having changed nothing but
the id counter. -/
theorem ingest_duplicate_path
    (c : EngineCfg) (t : String) (s : Sys) (i : IngestInput) (em : Embedder)
    (cf : ChunkerFn) (col : Collection)
    (h1 : c.storeConfigured = true) (h2 : c.embedder = some em)
    (h3 : c.vectorConfigured = true) (h4 : c.chunker = some cf)
    (h5 : i.content.isEmpty = false)
    (h6 : s.store.getCollection i.collectionID = some col)
    (h7 : s.store.documents.any (fun d => d.id == s.nextID) = false)
    (h8 : s.store.documents.any (fun d =>
        d.collectionID == i.collectionID
          && d.contentHash == contentHash i.content) = true) :
    Engine.ingest c t s i
      = some ({ s with nextID := s.nextID + 1 }, [],
              .err (.createDocument .duplicateDocument)) := by
  simp only [Engine.ingest, h1, h2, h3, h4, h5, h6]
  simp only [MemStore.createDocument]
  simp [h7, h8]

/-- GetCollection only reads the collections map. -/
theorem getCollection_congr (st1 st2 : MemStore) (i : Nat)
    (h : st1.collections = st2.collections) :
    st1.getCollection i = st2.getCollection i := by
  simp [MemStore.getCollection, h]

/-- C8: an Ingest call on a fully configured engine whose input content
is the empty string returns the empty-content error, emits no event, and
leaves both stores (indeed the whole system) unchanged. -/
theorem ingest_empty_content_rejected
    (c : EngineCfg) (t : String) (s : Sys) (i : IngestInput)
    (h1 : c.storeConfigured = true) (h2 : c.embedder.isSome = true)
    (h3 : c.vectorConfigured = true) (h4 : c.chunker.isSome = true)
    (h5 : i.content = []) :
    Engine.ingest c t s i = some (s, [], .err .emptyContent) := by
  obtain ⟨em, hem⟩ := Option.isSome_iff_exists.mp h2
  obtain ⟨cf, hcf⟩ := Option.isSome_iff_exists.mp h4
  simp [Engine.ingest, h1, h3, hem, hcf, h5]

/-- C8 witness: the concrete empty-content ingest on the configured
engine over the empty system. -/
theorem ingest_empty_content_rejected_witness :
    Engine.ingest (fixedCfg 1) "T1" emptySys { collectionID := 0, content := [] }
      = some (emptySys, [], .err .emptyContent) :=
  ingest_empty_content_rejected _ _ _ _ rfl rfl rfl rfl rfl

/-- C10: whenever Ingest returns a typed error with a nil result (the
paths before the document record is persisted: unconfigured
collaborators, empty content, collection not found, and the wrapped
CreateDocument failures including duplicate-document), no lifecycle
event was emitted and neither the metadata store nor the vector store
changed. -/
theorem ingest_error_result_no_events_no_writes
    (c : EngineCfg) (t : String) (s s' : Sys) (v : List Ev) (e : WErr)
    (i : IngestInput)
    (h : Engine.ingest c t s i = some (s', v, .err e)) :
    v = [] ∧ s'.store = s.store ∧ s'.vec = s.vec := by
  simp only [Engine.ingest] at h
  repeat' split at h
  all_goals try simp only [Engine.failIngest] at h
  all_goals try cases h
  all_goals simp

/-- C10 witness: the duplicate-document early failure observed on a
concrete second ingest of the same content. -/
theorem ingest_error_result_no_events_no_writes_witness :
    ([] : List Ev) = [] ∧ emptySys.store = emptySys.store ∧
      emptySys.vec = emptySys.vec :=
  ingest_error_result_no_events_no_writes _ _ _ _ _ _ _
    (by decide : Engine.ingest (fixedCfg 1) "T1" emptySys
      { collectionID := 0, content := [] }
      = some (emptySys, [], .err .emptyContent))

/-- C1: the claim says the end-to-end scenario (collection docs with
strategy fixed, chunk_size 20, chunk_overlap 0 under tenant T1; ingest
the 35-byte content "alpha beta gamma delta epsilon zeta") produces a
ready document with chunk_count 2, chunks "alpha beta gamma de" and
"lta epsilon zeta", and 2 vector entries.  The code instead never
returns from the Ingest call: CreateCollection replaces the zero
chunk_overlap with the default 50 (zero is indistinguishable from
unset), and FixedChunker.Chunk with a positive overlap restarts its loop
at end − 4·overlap = −165 after the first chunk, where the Go slice
expression panics — no fuel makes the modelled call return. -/
theorem ingest_scenario_never_returns (fuel : Nat) :
    Engine.ingest (fixedCfg fuel) "T1" scenarioSys weaveInput = none := by
  have h : Engine.ingest (fixedCfg fuel) "T1" scenarioSys weaveInput
      = scenarioIngestWith (fixedChunk fuel weaveText (some ⟨20, 50, "fixed"⟩)) := rfl
  rw [h, fixedChunk_scenario_diverges]
  rfl

/-- C3: the claim (and the spec invariant) says a document an Ingest call
leaves in state ready has chunk_count ≥ 1; in particular whitespace-only
content must not produce a ready document with chunk_count 0.  The code
violates this: ingesting the single space " " passes the empty-content
check, the chunker trims it to nothing and returns zero chunks, and the
pipeline still marks the document ready with chunk_count = 0 and no
vector entries. -/
theorem ingest_whitespace_ready_zero_chunks :
    whitespaceRun.map (fun r =>
      (r.2.2, r.1.store.documents.map (fun d => (d.state, d.chunkCount)),
       r.1.store.chunks.length, r.1.vec.entries.length))
    = some (.ok { documentID := 1, chunkCount := 0, state := .ready },
            [(.ready, 0)], 0, 0) := by decide

/-- C2: the claim says the fixed chunking strategy terminates for every
input and option value, in particular when chunk_overlap > 0 and the
trimmed text is non-empty.  The code does not: for the 8-byte input
"aaaaaaaa" with ChunkSize = 1 and ChunkOverlap = 1 the loop in
FixedChunker.Chunk re-enters the state start = 0 forever (start is reset
to end − 4·overlap each iteration and the break guard start ≥ end never
fires), so no amount of fuel makes the call return. -/
theorem fixedChunk_overlap_never_terminates (fuel : Nat) :
    fixedChunk fuel (List.replicate 8 'a') (some ⟨1, 1, "fixed"⟩) = none := by
  show (if (goTrimSpace (List.replicate 8 'a')).isEmpty then some []
    else fixedChunkLoop (goTrimSpace (List.replicate 8 'a')) 4 4 fuel 0 0 []) = none
  have ht : goTrimSpace (List.replicate 8 'a') = List.replicate 8 'a' := by decide
  rw [ht]
  simpa using fixedChunkLoop_stuck fuel 0 []

/-- Ingest pipeline store chain (update, chunk batch, update) never
touches the collections map. -/
theorem pipeline_collections (st : MemStore) (dP dR : Document) (chs : List Chunk) :
    (((st.updateDocumentBestEffort dP).createChunkBatch chs).updateDocumentBestEffort
      dR).collections = st.collections := by
  rw [updateBestEffort_collections, createChunkBatch_collections,
      updateBestEffort_collections]

/-- Ingest pipeline store chain preserves collection lookups. -/
theorem pipeline_getCollection (st : MemStore) (dP dR : Document)
    (chs : List Chunk) (cid : Nat) :
    (((st.updateDocumentBestEffort dP).createChunkBatch chs).updateDocumentBestEffort
      dR).getCollection cid = st.getCollection cid :=
  getCollection_congr _ _ _ (pipeline_collections _ _ _ _)

/-- Counting duplicate-key documents factors through docKey. -/
theorem countP_dup_via_keys (cid : Nat) (hsh : Str) (l : List Document) :
    l.countP (fun d => d.collectionID == cid && d.contentHash == hsh)
      = (l.map docKey).countP (fun k => k.2.1 == cid && k.2.2 == hsh) := by
  rw [List.countP_map]
  rfl

/-- The id-exists guard of CreateDocument factors through docKey. -/
theorem any_id_via_keys (n : Nat) (l : List Document) :
    l.any (fun d => d.id == n) = (l.map docKey).any (fun k => k.1 == n) := by
  induction l with
  | nil => rfl
  | cons a as ih => simp only [List.any_cons, List.map_cons, ih, docKey]

/-- The duplicate guard of CreateDocument factors through docKey. -/
theorem any_dup_via_keys (cid : Nat) (hsh : Str) (l : List Document) :
    l.any (fun d => d.collectionID == cid && d.contentHash == hsh)
      = (l.map docKey).any (fun k => k.2.1 == cid && k.2.2 == hsh) := by
  induction l with
  | nil => rfl
  | cons a as ih => simp only [List.any_cons, List.map_cons, ih, docKey]

/-- Through a full successful ingest the documents map gains exactly the
new document key: the processing and ready updates replace the created
document in place (same id, collection, content hash), chunk writes do
not touch documents, and no pre-existing document shared the new id. -/
theorem pipeline_docKeys (st : MemStore) (d0 dP dR : Document) (chs : List Chunk)
    (hKP : docKey dP = docKey d0) (hKR : docKey dR = docKey d0)
    (hidf : st.documents.any (fun x => x.id == d0.id) = false) :
    (((({ st with documents := st.documents ++ [d0] } : MemStore).updateDocumentBestEffort
        dP).createChunkBatch chs).updateDocumentBestEffort dR).documents.map docKey
      = st.documents.map docKey ++ [docKey d0] := by
  have hidP : dP.id = d0.id := congrArg (fun k => k.1) hKP
  have hidR : dR.id = d0.id := congrArg (fun k => k.1) hKR
  have hold : ∀ x ∈ st.documents, x.id ≠ d0.id := by
    intro x hx
    have := List.any_eq_false.mp hidf x hx
    simpa using this
  have hf1 : ∀ x ∈ ({ st with documents := st.documents ++ [d0] } : MemStore).documents,
      x.id = dP.id → docKey x = docKey dP := by
    intro x hx hid
    rw [hidP] at hid
    simp at hx
    rcases hx with hx | rfl
    · exact absurd hid (hold x hx)
    · exact hKP.symm
  have hf2 : ∀ x ∈ ((({ st with documents := st.documents ++ [d0] } :
        MemStore).updateDocumentBestEffort dP).createChunkBatch chs).documents,
      x.id = dR.id → docKey x = docKey dR := by
    intro x hx hid
    rw [createChunkBatch_documents] at hx
    rw [hidR] at hid
    rcases updateBestEffort_mem _ _ _ hx with hx2 | rfl
    · simp at hx2
      rcases hx2 with hx2 | rfl
      · exact absurd hid (hold x hx2)
      · exact hKR.symm
    · exact hKP.trans hKR.symm
  rw [updateBestEffort_map _ _ _ hf2, createChunkBatch_documents,
      updateBestEffort_map _ _ _ hf1]
  simp

/-- C6: if an Ingest of some content into a collection succeeded, a
second Ingest of the same content into the same collection fails with
the (wrapped) duplicate-document error, changes neither store (only the
id counter advances), and the number of documents carrying that
(collection, content hash) pair is exactly one.  The hypothesis hwf is
the id-freshness invariant: stored document ids precede the counter. -/
theorem ingest_second_same_content_duplicate
    (c : EngineCfg) (t : String) (s s1 : Sys) (v : List Ev) (r : IngestResult)
    (i : IngestInput)
    (hwf : ∀ d ∈ s.store.documents, d.id < s.nextID)
    (h : Engine.ingest c t s i = some (s1, v, .ok r)) :
    Engine.ingest c t s1 i
      = some ({ s1 with nextID := s1.nextID + 1 }, [],
              .err (.createDocument .duplicateDocument)) ∧
    s1.store.documents.countP (fun d =>
        d.collectionID == i.collectionID
          && d.contentHash == contentHash i.content) = 1 := by
  simp only [Engine.ingest] at h
  repeat' split at h
  all_goals try simp only [Engine.failIngest] at h
  all_goals try cases h
  rename_i hstore0 xe em hem hvec0 xc cf hcf hcont0 xcol col hcol xcd st2 hcd
    loadRes content2 hload xck crs hchunk xeb vecs hembed xen entries hentries
  obtain ⟨hst2, hidf, hdupf⟩ := createDocument_ok _ _ _ hcd
  subst hst2
  dsimp only
  have hkeys := pipeline_docKeys s.store _ _ _
    (buildChunks i.collectionID s.nextID t (s.nextID + 1) crs)
    (show docKey {
        id := s.nextID, collectionID := i.collectionID, tenantID := t,
        title := i.title, source := i.source, sourceType := i.sourceType,
        contentHash := contentHash i.content, contentLength := i.content.length,
        chunkCount := 0, metadata := i.metadata, state := DocState.processing,
        error := "" } = docKey {
        id := s.nextID, collectionID := i.collectionID,
        tenantID := t, title := i.title, source := i.source,
        sourceType := i.sourceType, contentHash := contentHash i.content,
        contentLength := i.content.length, chunkCount := 0, metadata := i.metadata,
        state := DocState.pending, error := "" } from rfl)
    (show docKey {
        id := s.nextID, collectionID := i.collectionID, tenantID := t,
        title := i.title, source := i.source, sourceType := i.sourceType,
        contentHash := contentHash i.content, contentLength := i.content.length,
        chunkCount := ((buildChunks i.collectionID s.nextID t (s.nextID + 1)
          crs).length : Int), metadata := i.metadata, state := DocState.ready,
        error := "" } = docKey {
        id := s.nextID, collectionID := i.collectionID,
        tenantID := t, title := i.title, source := i.source,
        sourceType := i.sourceType, contentHash := contentHash i.content,
        contentLength := i.content.length, chunkCount := 0, metadata := i.metadata,
        state := DocState.pending, error := "" } from rfl)
    hidf
  refine ⟨ingest_duplicate_path c t _ i em cf col (by simpa using hstore0) hem
      (by simpa using hvec0) hcf (by simpa using hcont0) ?hgc ?hid ?hdup, ?hcnt⟩
  case hgc =>
    dsimp only
    rw [pipeline_getCollection]
    exact hcol
  case hid =>
    dsimp only
    rw [any_id_via_keys, hkeys, List.any_append]
    have h1 : (s.store.documents.map docKey).any
        (fun k => k.1 == s.nextID + 1 + crs.length) = false := by
      rw [List.any_eq_false]
      intro k hk
      obtain ⟨d, hd, rfl⟩ := List.mem_map.mp hk
      have hlt := hwf d hd
      simp only [docKey, beq_iff_eq]
      omega
    rw [h1]
    simp only [docKey, Bool.false_or, List.any_cons, List.any_nil, Bool.or_false,
      beq_eq_false_iff_ne, ne_eq]
    omega
  case hdup =>
    dsimp only
    rw [any_dup_via_keys, hkeys, List.any_append]
    simp [docKey]
  case hcnt =>
    dsimp only
    rw [countP_dup_via_keys, hkeys, List.countP_append]
    have h0 : (s.store.documents.map docKey).countP
        (fun k => k.2.1 == i.collectionID && k.2.2 == contentHash i.content) = 0 := by
      rw [List.countP_eq_zero]
      intro k hk
      obtain ⟨d, hd, rfl⟩ := List.mem_map.mp hk
      have := List.any_eq_false.mp hdupf d hd
      simpa [docKey] using this
    rw [h0]
    simp [docKey, List.countP_cons]

/-- C6 witness: the concrete second ingest of the same two-byte content
returns the wrapped duplicate-document error and the document count for
that content stays one. -/
theorem ingest_second_same_content_duplicate_witness :
    Engine.ingest (fixedCfg 2) "T1" dupSys1 dupInput
      = some ({ dupSys1 with nextID := dupSys1.nextID + 1 }, [],
              .err (.createDocument .duplicateDocument)) ∧
    dupSys1.store.documents.countP (fun d =>
        d.collectionID == dupInput.collectionID
          && d.contentHash == contentHash dupInput.content) = 1 :=
  ingest_second_same_content_duplicate _ _ _ _ _ _ _
    (by decide)
    (show Engine.ingest (fixedCfg 2) "T1" dupSys dupInput
        = some (dupSys1,
            [Ev.ingestStarted 0 1, Ev.ingestChunked [2], Ev.ingestEmbedded [2],
             Ev.ingestCompleted 0 1 1],
            .ok { documentID := 1, chunkCount := 1, state := .ready })
      from by decide)

/-- C5 counterexample: on a concrete store, DeleteDocument performs the
vector-store deletion first (before the chunk and document deletions),
and DeleteCollection deletes the collection row after the vector-store
deletion, so the claimed metadata-first-vector-last order fails on both
calls. -/
theorem delete_metadata_first_violated :
    (Engine.deleteDocument (fixedCfg 1) delSys 1).2.1
      = [.vecDeleteByMetadata "document_id" 1, .delChunksByDocument 1,
         .delDocument 1, .emitDocumentDeleted 1] ∧
    noMetaAfterVec (Engine.deleteDocument (fixedCfg 1) delSys 1).2.1 = false ∧
    (Engine.deleteCollection (fixedCfg 1) delSys 0).2.1
      = [.delChunksByCollection 0, .delDocumentsByCollection 0,
         .vecDeleteByMetadata "collection_id" 0, .delCollection 0,
         .emitCollectionDeleted 0] ∧
    noMetaAfterVec (Engine.deleteCollection (fixedCfg 1) delSys 0).2.1 = false := by
  decide

/-- C5 amended: on a configured engine, DeleteDocument always performs
the vector-store deletion first, then the chunk deletion, then (on
success) the document row deletion and the event; DeleteCollection
deletes chunks and documents first, then the vector entries, then (on
success) the collection row and the event. -/
theorem delete_operation_order (c : EngineCfg) (s : Sys) (docID colID : Nat)
    (h1 : c.storeConfigured = true) (h2 : c.vectorConfigured = true) :
    ((Engine.deleteDocument c s docID).2.1
        = [.vecDeleteByMetadata "document_id" docID, .delChunksByDocument docID] ∨
      (Engine.deleteDocument c s docID).2.1
        = [.vecDeleteByMetadata "document_id" docID, .delChunksByDocument docID,
           .delDocument docID, .emitDocumentDeleted docID]) ∧
    ((Engine.deleteCollection c s colID).2.1
        = [.delChunksByCollection colID, .delDocumentsByCollection colID,
           .vecDeleteByMetadata "collection_id" colID] ∨
      (Engine.deleteCollection c s colID).2.1
        = [.delChunksByCollection colID, .delDocumentsByCollection colID,
           .vecDeleteByMetadata "collection_id" colID, .delCollection colID,
           .emitCollectionDeleted colID]) := by
  constructor
  · unfold Engine.deleteDocument
    simp only [h1, h2, not_true_eq_false, if_false]
    split <;> simp
  · unfold Engine.deleteCollection
    simp only [h1, h2, not_true_eq_false, if_false]
    split <;> simp

/-- C5 witness: the amended order at the concrete deletion scenario. -/
theorem delete_operation_order_witness :
    ((Engine.deleteDocument (fixedCfg 1) delSys 1).2.1
        = [.vecDeleteByMetadata "document_id" 1, .delChunksByDocument 1] ∨
      (Engine.deleteDocument (fixedCfg 1) delSys 1).2.1
        = [.vecDeleteByMetadata "document_id" 1, .delChunksByDocument 1,
           .delDocument 1, .emitDocumentDeleted 1]) ∧
    ((Engine.deleteCollection (fixedCfg 1) delSys 0).2.1
        = [.delChunksByCollection 0, .delDocumentsByCollection 0,
           .vecDeleteByMetadata "collection_id" 0] ∨
      (Engine.deleteCollection (fixedCfg 1) delSys 0).2.1
        = [.delChunksByCollection 0, .delDocumentsByCollection 0,
           .vecDeleteByMetadata "collection_id" 0, .delCollection 0,
           .emitCollectionDeleted 0]) :=
  delete_operation_order (fixedCfg 1) delSys 1 0 rfl rfl

/-- Head of an insertion is the inserted element or the old head. -/
theorem insertDescBy_headOpt (r : SearchResult) (l : List SearchResult) :
    (insertDescBy r l).head? = some r ∨ (insertDescBy r l).head? = l.head? := by
  cases l with
  | nil => left; rfl
  | cons x xs =>
    by_cases h : r.score > x.score
    · left; simp [insertDescBy, h]
    · right; simp [insertDescBy, h]

/-- Insertion preserves non-strict descending sortedness. -/
theorem chain'_insertDescBy (r : SearchResult) (l : List SearchResult)
    (h : List.Chain' (fun x y => y.score ≤ x.score) l) :
    List.Chain' (fun x y => y.score ≤ x.score) (insertDescBy r l) := by
  induction l with
  | nil => simp [insertDescBy]
  | cons x xs ih =>
    rw [insertDescBy]
    by_cases hgt : r.score > x.score
    · rw [if_pos hgt]
      exact List.Chain'.cons (le_of_lt hgt) h
    · rw [if_neg hgt]
      obtain ⟨hhead, hchain⟩ := List.chain'_cons'.mp h
      apply List.chain'_cons'.mpr
      refine ⟨?_, ih hchain⟩
      intro y hy
      rcases insertDescBy_headOpt r xs with h1 | h1
      · rw [h1] at hy
        simp at hy
        subst hy
        exact le_of_not_lt hgt
      · rw [h1] at hy
        exact hhead y hy

/-- The search sort yields a non-strictly descending score sequence. -/
theorem chain'_sortDesc (l : List SearchResult) :
    List.Chain' (fun x y => y.score ≤ x.score) (sortDesc l) := by
  induction l with
  | nil => simp [sortDesc]
  | cons x xs ih => exact chain'_insertDescBy x _ ih

/-- Membership in an insertion step. -/
theorem mem_insertDescBy (y r : SearchResult) (l : List SearchResult) :
    y ∈ insertDescBy r l ↔ y = r ∨ y ∈ l := by
  induction l with
  | nil => simp [insertDescBy]
  | cons x xs ih =>
    rw [insertDescBy]
    by_cases h : r.score > x.score
    · rw [if_pos h]; simp
    · rw [if_neg h]; simp [ih]; tauto

/-- Sorting preserves membership. -/
theorem mem_sortDesc (y : SearchResult) (l : List SearchResult) :
    y ∈ sortDesc l ↔ y ∈ l := by
  induction l with
  | nil => simp [sortDesc]
  | cons x xs ih =>
    show y ∈ insertDescBy x (sortDesc xs) ↔ _
    rw [mem_insertDescBy]
    simp [ih]

/-- The skip-selected fold equals a plain pickStep fold over the filtered candidate list. -/
theorem foldSkip_eq (g : SearchResult → ℚ) (used : List Nat) :
    ∀ (l : List (Nat × SearchResult)) (acc : Option (Nat × SearchResult)),
      l.foldl (fun best p =>
          if used.contains p.1 then best else pickStep g best p) acc
        = (l.filter (fun p => !(used.contains p.1))).foldl (pickStep g) acc := by
  intro l
  induction l with
  | nil => intro acc; rfl
  | cons p t ih =>
    intro acc
    by_cases h : used.contains p.1
    · simp only [List.foldl_cons, List.filter_cons, h, Bool.not_true, if_true,
        Bool.false_eq_true, if_false]
      exact ih acc
    · have h' : used.contains p.1 = false := by simpa using h
      simp only [List.foldl_cons, List.filter_cons, h', Bool.not_false, if_true,
        Bool.false_eq_true, if_false]
      exact ih _

/-- Characterisation of the pickStep fold: a result is a member attaining the maximum score, and no earlier-ranked member attains it, provided ranks strictly increase. -/
theorem foldPick_some (g : SearchResult → ℚ) :
    ∀ (l : List (Nat × SearchResult)) (b : Nat × SearchResult),
      List.Pairwise (fun p q => p.1 < q.1) (b :: l) →
      ∃ r, l.foldl (pickStep g) (some b) = some r ∧ r ∈ b :: l ∧
        (∀ q ∈ b :: l, g q.2 ≤ g r.2) ∧
        (∀ q ∈ b :: l, g q.2 = g r.2 → r.1 ≤ q.1) := by
  intro l
  induction l with
  | nil =>
    intro b _
    refine ⟨b, rfl, by simp, ?_, ?_⟩
    · intro q hq
      simp only [List.mem_cons, List.not_mem_nil, or_false] at hq
      rw [hq]
    · intro q hq _
      simp only [List.mem_cons, List.not_mem_nil, or_false] at hq
      rw [hq]
  | cons p t ih =>
    intro b hpw
    have hbp : b.1 < p.1 := (List.pairwise_cons.mp hpw).1 p (by simp)
    have hpwt : List.Pairwise (fun p q => p.1 < q.1) (p :: t) :=
      (List.pairwise_cons.mp hpw).2
    have step : (p :: t).foldl (pickStep g) (some b)
        = t.foldl (pickStep g) (pickStep g (some b) p) := rfl
    by_cases hgt : g p.2 > g b.2
    · have hb' : pickStep g (some b) p = some p := by simp [pickStep, hgt]
      obtain ⟨r, hr, hmem, hmax, hfirst⟩ := ih p hpwt
      refine ⟨r, ?_, ?_, ?_, ?_⟩
      · rw [step, hb']
        exact hr
      · simp only [List.mem_cons] at hmem ⊢
        tauto
      · intro q hq
        simp only [List.mem_cons] at hq
        rcases hq with h1 | h1 | h1
        · rw [h1]
          exact le_trans (le_of_lt hgt) (hmax p (by simp))
        · exact hmax q (by simp [h1])
        · exact hmax q (by simp [h1])
      · intro q hq heq
        simp only [List.mem_cons] at hq
        rcases hq with h1 | h1 | h1
        · exfalso
          have h2 : g b.2 < g r.2 := lt_of_lt_of_le hgt (hmax p (by simp))
          rw [h1] at heq
          exact absurd heq (ne_of_lt h2)
        · exact hfirst q (by simp [h1]) heq
        · exact hfirst q (by simp [h1]) heq
    · have hb' : pickStep g (some b) p = some b := by simp [pickStep, hgt]
      have hpwb : List.Pairwise (fun p q => p.1 < q.1) (b :: t) := by
        rw [List.pairwise_cons]
        refine ⟨?_, (List.pairwise_cons.mp hpwt).2⟩
        intro q hq
        exact (List.pairwise_cons.mp hpw).1 q (by simp [hq])
      obtain ⟨r, hr, hmem, hmax, hfirst⟩ := ih b hpwb
      refine ⟨r, ?_, ?_, ?_, ?_⟩
      · rw [step, hb']
        exact hr
      · simp only [List.mem_cons] at hmem ⊢
        tauto
      · intro q hq
        simp only [List.mem_cons] at hq
        rcases hq with h1 | h1 | h1
        · exact hmax q (by simp [h1])
        · rw [h1]
          exact le_trans (le_of_not_lt hgt) (hmax b (by simp))
        · exact hmax q (by simp [h1])
      · intro q hq heq
        simp only [List.mem_cons] at hq
        rcases hq with h1 | h1 | h1
        · exact hfirst q (by simp [h1]) heq
        · have hqb : g b.2 = g r.2 := le_antisymm (hmax b (by simp))
            (by rw [← heq, h1]; exact le_of_not_lt hgt)
          have h3 := hfirst b (by simp) hqb
          rw [h1]
          omega
        · exact hfirst q (by simp [h1]) heq

/-- Under strictly increasing ranks, find? returns the satisfier of least rank. -/
theorem find?_first_fst (p : (Nat × SearchResult) → Bool) :
    ∀ (l : List (Nat × SearchResult)) (a : Nat × SearchResult),
      List.Pairwise (fun x y => x.1 < y.1) l →
      l.find? p = some a →
      ∀ x ∈ l, p x = true → a.1 ≤ x.1 := by
  intro l
  induction l with
  | nil => intro a _ h; cases h
  | cons y t ih =>
    intro a hpw hf x hx hpx
    rw [List.find?_cons] at hf
    cases hpy : p y with
    | true =>
      rw [hpy] at hf
      simp only [Option.some.injEq] at hf
      subst hf
      simp only [List.mem_cons] at hx
      rcases hx with h1 | h1
      · rw [h1]
      · exact le_of_lt ((List.pairwise_cons.mp hpw).1 x h1)
    | false =>
      rw [hpy] at hf
      simp only [List.mem_cons] at hx
      rcases hx with h1 | h1
      · rw [h1] at hpx
        rw [hpx] at hpy
        cases hpy
      · exact ih a (List.pairwise_cons.mp hpw).2 hf x h1 hpx

/-- Strictly increasing ranks are injective on the list. -/
theorem pairwise_fst_inj (l : List (Nat × SearchResult))
    (hpw : List.Pairwise (fun x y => x.1 < y.1) l)
    (a b : Nat × SearchResult) (ha : a ∈ l) (hb : b ∈ l) (hab : a.1 = b.1) :
    a = b := by
  by_contra hne
  have hsym : Symmetric (fun x y : Nat × SearchResult => x.1 ≠ y.1) :=
    fun x y hxy => hxy.symm
  have hpw' : List.Pairwise (fun x y : Nat × SearchResult => x.1 ≠ y.1) l :=
    hpw.imp (fun h => ne_of_lt h)
  exact (List.Pairwise.forall hsym hpw' ha hb hne) hab

/-- Ranks of the available candidates strictly increase. -/
theorem specAvail_pairwise (cands : List SearchResult) (used : List Nat) :
    List.Pairwise (fun x y => x.1 < y.1) (specAvail cands used) := by
  unfold specAvail
  apply List.Pairwise.filter
  have h2 : cands.enum.map Prod.fst = List.range cands.length :=
    List.enum_map_fst _
  have h1 : List.Pairwise (· < ·) (cands.enum.map Prod.fst) := by
    rw [h2]
    exact List.pairwise_lt_range _
  exact List.pairwise_map.mp h1

/-- The code's candidate scan picks exactly the spec's earliest maximiser. -/
theorem mmrPick_eq_specPickBy (lam : ℚ) (cands : List SearchResult)
    (used : List Nat) (selVecs : List (List ℚ)) :
    mmrPick lam cands used selVecs
      = specPickBy (mmrScore lam selVecs) cands used := by
  unfold mmrPick specPickBy
  rw [foldSkip_eq]
  have hpw := specAvail_pairwise cands used
  rw [show List.filter (fun p => !used.contains p.1) cands.enum
      = specAvail cands used from rfl]
  cases havail : specAvail cands used with
  | nil => rfl
  | cons b t =>
    rw [havail] at hpw
    obtain ⟨r, hr, hmem, hmax, hfirst⟩ := foldPick_some (mmrScore lam selVecs) t b hpw
    have step : (b :: t).foldl (pickStep (mmrScore lam selVecs)) none
        = t.foldl (pickStep (mmrScore lam selVecs)) (some b) := rfl
    rw [step, hr]
    have hpred : ((b :: t).all fun q =>
        decide (mmrScore lam selVecs q.2 ≤ mmrScore lam selVecs r.2)) = true := by
      simp only [List.all_eq_true, decide_eq_true_eq]
      exact hmax
    have hsome : ((b :: t).find? (fun p => (b :: t).all fun q =>
        decide (mmrScore lam selVecs q.2 ≤ mmrScore lam selVecs p.2))).isSome := by
      rw [List.find?_isSome]
      exact ⟨r, hmem, hpred⟩
    obtain ⟨r', hr'⟩ := Option.isSome_iff_exists.mp hsome
    rw [hr']
    have hmem' : r' ∈ b :: t := List.mem_of_find?_eq_some hr'
    have hpred' := List.find?_some hr'
    simp only [List.all_eq_true, decide_eq_true_eq] at hpred'
    have heq : mmrScore lam selVecs r'.2 = mmrScore lam selVecs r.2 :=
      le_antisymm (hmax r' hmem') (hpred' r hmem)
    have h1 : r'.1 ≤ r.1 :=
      find?_first_fst _ (b :: t) r' hpw hr' r hmem hpred
    have h2 : r.1 ≤ r'.1 := hfirst r' hmem' heq
    have : r = r' := pairwise_fst_inj (b :: t) hpw r r' hmem hmem' (by omega)
    rw [this]

/-- Folding max from a starting value is the max of the value and the fold from the head. -/
theorem foldl_max_shift (l : List ℚ) :
    ∀ (a x : ℚ), l.foldl max (max a x) = max a (l.foldl max x) := by
  induction l with
  | nil => intro a x; rfl
  | cons y s ih =>
    intro a x
    show s.foldl max (max (max a x) y) = max a ((y :: s).foldl max x)
    rw [max_assoc, ih]
    rfl

/-- Folding max from 0 computes the list maximum clamped below at 0. -/
theorem foldl_max_zero_getD (l : List ℚ) :
    l.foldl max 0 = max 0 ((l.max?).getD 0) := by
  cases l with
  | nil => simp
  | cons x t =>
    show t.foldl max (max 0 x) = max 0 (((x :: t).max?).getD 0)
    rw [foldl_max_shift]
    rfl

/-- The code's MMR score function equals the clamped spec score. -/
theorem mmrScore_eq_clamped (lam : ℚ) (selVecs : List (List ℚ)) :
    mmrScore lam selVecs = specScoreClamped lam selVecs := by
  funext c
  unfold mmrScore specScoreClamped specMaxSim
  have h1 : selVecs.foldl (fun m sv => max m (cosine c.entry.vector sv)) 0
      = (selVecs.map (fun sv => cosine c.entry.vector sv)).foldl max 0 := by
    rw [List.foldl_map]
  rw [h1, foldl_max_zero_getD]

/-- The code's selection loop equals the spec loop with the clamped score. -/
theorem mmrLoop_eq_specLoop (lam : ℚ) (cands : List SearchResult) :
    ∀ (n : Nat) (sel : List (Nat × SearchResult)),
      mmrLoop lam cands n sel
        = specLoopBy (fun selVecs c => specScoreClamped lam selVecs c) cands n sel := by
  intro n
  induction n with
  | zero => intro sel; rfl
  | succ m ih =>
    intro sel
    rw [mmrLoop, specLoopBy]
    by_cases h : sel.length < cands.length
    · rw [if_pos h, if_pos h]
      rw [mmrPick_eq_specPickBy]
      rw [show specPickBy
            (mmrScore lam (sel.map (fun q => q.2.entry.vector))) cands
            (sel.map (fun q => q.1))
          = specPickBy
            (specScoreClamped lam (sel.map (fun q => q.2.entry.vector))) cands
            (sel.map (fun q => q.1)) from by rw [mmrScore_eq_clamped]]
      cases specPickBy
          (specScoreClamped lam (sel.map (fun q => q.2.entry.vector))) cands
          (sel.map (fun q => q.1)) with
      | none => rfl
      | some p => exact ih (sel ++ [p])
    · rw [if_neg h, if_neg h]

/-- The candidate-count conditional equals max 20 (topK times 3). -/
theorem candidateCount_eq_max (topK : Int) :
    candidateCount topK = max 20 (topK * 3) := by
  unfold candidateCount
  split <;> omega

/-- C7: MMRRetriever.Retrieve refines the spec procedure up to one deviation — the max-similarity term is clamped below at 0, because the code's fold starts from 0.0. Candidate count max(20, 3·top_k), strict-improvement scan with ties to the earlier candidate, and stopping at top_k hold exactly as claimed; only the claimed objective λ·relevance − (1−λ)·max_sim must read max(0, max_sim) in place of max_sim. -/
theorem mmrRetrieve_eq_specClamped (lam : ℚ) (vs : VecStore) (embed : Embedder)
    (query : Str) (opts : ROptions) :
    mmrRetrieve lam vs embed query opts
      = specMMRRetrieveClamped lam vs embed query opts := by
  unfold mmrRetrieve specMMRRetrieveClamped
  have hopts : mmrSearchOpts opts = specMMROpts opts := by
    unfold specMMROpts mmrSearchOpts
    rw [candidateCount_eq_max]
  rw [hopts]
  simp only [mmrLoop_eq_specLoop]

/-- C7 counterexample: with a candidate of negative similarity to the first selection, the code (clamped objective) picks B second, while the spec's literal unclamped objective picks X, so the claimed selection rule differs from the code on a concrete input. -/
theorem mmr_truemax_spec_violated :
    (mmrRetrieve (3/10) mmrVS mmrEmb "q".data mmrOpts).toOption
      = some [⟨"A".data, [], 1⟩, ⟨"B".data, [], 0⟩] ∧
    (specMMRRetrieveTrue (3/10) mmrVS mmrEmb "q".data mmrOpts).toOption
      = some [⟨"A".data, [], 1⟩, ⟨"X".data, [], -4/5⟩] ∧
    (mmrRetrieve (3/10) mmrVS mmrEmb "q".data mmrOpts).toOption
      ≠ (specMMRRetrieveTrue (3/10) mmrVS mmrEmb "q".data mmrOpts).toOption := by
  decide

/-- The selection loop adds at most fuel-many elements to the selection. -/
theorem mmrLoop_length (lam : ℚ) (cands : List SearchResult) :
    ∀ (n : Nat) (sel : List (Nat × SearchResult)),
      (mmrLoop lam cands n sel).length ≤ sel.length + n := by
  intro n
  induction n with
  | zero => intro sel; simp [mmrLoop]
  | succ m ih =>
    intro sel
    rw [mmrLoop]
    by_cases h : sel.length < cands.length
    · rw [if_pos h]
      cases mmrPick lam cands (sel.map (fun q => q.1))
          (sel.map (fun q => q.2.entry.vector)) with
      | none =>
        dsimp only
        omega
      | some p =>
        dsimp only
        have := ih (sel ++ [p])
        simp only [List.length_append, List.length_cons, List.length_nil] at this
        omega
    · rw [if_neg h]
      omega

/-- C4 counterexample: a min_score of 0 lets a score of −1 through (the threshold is only applied when min_score > 0); two equal-scoring entries defeat strictly-descending order; and the MMR path returns scores [4/5, 0, 3/5], which are not sorted by score at all. -/
theorem retrieve_minscore_and_order_violated :
    ((memSearch negVS [1, 0] (some zeroMinOpts)).map (fun r => r.score) = [-1] ∧
      ¬ (∀ r ∈ memSearch negVS [1, 0] (some zeroMinOpts),
          zeroMinOpts.minScore ≤ r.score)) ∧
    ((memSearch tieVS [1, 0] (some tieOpts)).map (fun r => r.score) = [1, 1] ∧
      ¬ List.Chain' (fun x y => y.score < x.score)
          (memSearch tieVS [1, 0] (some tieOpts))) ∧
    ((mmrRetrieve (1/2) ndVS ndEmb "q".data ndOpts).toOption.map
        (fun l => l.map (fun r => r.score)) = some [4/5, 0, 3/5] ∧
      ¬ List.Chain' (fun x y => (y : ℚ) ≤ x) [4/5, 0, (3/5 : ℚ)]) := by
  refine ⟨⟨by decide, by decide⟩, ⟨by decide, ?_⟩, ⟨by decide, ?_⟩⟩
  · have he : memSearch tieVS [1, 0] (some tieOpts)
        = [⟨⟨2, [1, 0], "t2".data, []⟩, 1⟩, ⟨⟨1, [1, 0], "t1".data, []⟩, 1⟩] := by
      decide
    rw [he]
    intro hc
    rw [List.chain'_cons] at hc
    exact absurd hc.1 (lt_irrefl _)
  · intro hc
    rw [List.chain'_cons, List.chain'_cons] at hc
    exact absurd hc.2.1 (by norm_num)

/-- C4: what Retrieve actually guarantees. The direct search path returns results in non-increasing (not strictly decreasing) score order, at most top_k of them when top_k > 0, and honours min_score only when min_score > 0; the MMR path returns at most top_k results, in selection order. -/
theorem retrieve_sorted_bounded_threshold (vs : VecStore) (v : List ℚ)
    (o : SearchOptions) (h : 0 < o.topK) :
    List.Chain' (fun x y => y.score ≤ x.score) (memSearch vs v (some o)) ∧
    (memSearch vs v (some o)).length ≤ o.topK.toNat ∧
    (0 < o.minScore → ∀ r ∈ memSearch vs v (some o), o.minScore ≤ r.score) ∧
    (∀ (lam : ℚ) (embed : Embedder) (query : Str) (ro : ROptions)
        (res : List RResult), mmrRetrieve lam vs embed query ro = .ok res →
        res.length ≤ ro.topK.toNat) := by
  refine ⟨?_, ?_, ?_, ?_⟩
  · show List.Chain' _ ((sortDesc _).take _)
    exact List.Chain'.prefix (chain'_sortDesc _) ( List.take_prefix _ _)
  · unfold memSearch
    dsimp only
    rw [if_pos h]
    exact List.length_take_le _ _
  · intro hm r hr
    unfold memSearch at hr
    dsimp only at hr
    have hr2 := (mem_sortDesc r _).mp (List.mem_of_mem_take hr)
    obtain ⟨e, he, hf⟩ := List.mem_filterMap.mp hr2
    by_cases hsp : searchPass (some o) e
    · rw [if_pos hsp] at hf
      by_cases hscp : scorePass (some o) (cosineSimilarity v e.vector) = true
      · rw [if_pos hscp] at hf
        cases hf
        simp only [scorePass, Bool.not_eq_true', Bool.and_eq_false_iff,
          decide_eq_false_iff_not, not_lt] at hscp
        rcases hscp with h1 | h1
        · exact absurd hm (by simpa using h1)
        · exact h1
      · rw [if_neg hscp] at hf
        cases hf
    · rw [if_neg hsp] at hf
      cases hf
  · intro lam embed query ro res hres
    unfold mmrRetrieve at hres
    split at hres
    · cases hres
    · split at hres
      · injection hres with h1
        subst h1
        simp
      · dsimp only at hres
        split at hres
        · injection hres with h1
          subst h1
          simp
        · injection hres with h1
          subst h1
          rw [List.length_map]
          exact le_trans (mmrLoop_length lam _ _ []) (by simp)

/-- C4 witness: the guarantees instantiated at a concrete store, query and options with top_k = 5. -/
theorem retrieve_sorted_bounded_threshold_witness :
    0 < wOpts.topK ∧
    (List.Chain' (fun x y => y.score ≤ x.score)
        (memSearch mmrVS [1, 0] (some wOpts)) ∧
      (memSearch mmrVS [1, 0] (some wOpts)).length ≤ wOpts.topK.toNat ∧
      (0 < wOpts.minScore → ∀ r ∈ memSearch mmrVS [1, 0] (some wOpts),
          wOpts.minScore ≤ r.score) ∧
      (∀ (lam : ℚ) (embed : Embedder) (query : Str) (ro : ROptions)
          (res : List RResult), mmrRetrieve lam mmrVS embed query ro = .ok res →
          res.length ≤ ro.topK.toNat)) :=
  ⟨by decide, retrieve_sorted_bounded_threshold mmrVS [1, 0] wOpts (by decide)⟩

/-- Registration folds each cache as filterMap does, in order. -/
theorem foldl_register_proj {α : Type} (p : Registry → List (NamedHook α))
    (g : WExt → Option (Hook α))
    (h : ∀ (r : Registry) (e : WExt),
      p (Registry.register r e) = addIf (p r) e.name (g e)) :
    ∀ (es : List WExt) (r : Registry),
      p (es.foldl Registry.register r) = p r ++ cacheOf g es := by
  intro es
  induction es with
  | nil => intro r; simp [cacheOf]
  | cons e rest ih =>
    intro r
    simp only [List.foldl_cons, cacheOf, List.filterMap_cons, ih, h]
    cases hg : g e <;> simp [addIf, cacheOf]

/-- Registration appends to the extension list, in order. -/
theorem foldl_register_extensions :
    ∀ (es : List WExt) (r : Registry),
      (es.foldl Registry.register r).extensions = r.extensions ++ es := by
  intro es
  induction es with
  | nil => intro r; simp
  | cons e rest ih =>
    intro r
    simp only [List.foldl_cons, ih, Registry.register]
    simp

/-- The emit fold, started from any log prefix, appends one WARN record
per erroring hook in entry order. -/
theorem emitHooks_foldl {α : Type} (hookName : String) (a : α) :
    ∀ (entries : List (NamedHook α)) (logs : List LogRec),
      entries.foldl (fun l e =>
          match e.hook a with
          | some errText => l ++ [logHookError hookName e.name errText]
          | none => l) logs
        = logs ++ entries.filterMap (fun e =>
            (e.hook a).map (logHookError hookName e.name)) := by
  intro entries
  induction entries with
  | nil => intro logs; simp
  | cons e rest ih =>
    intro logs
    simp only [List.foldl_cons, List.filterMap_cons]
    cases hh : e.hook a <;> simp [ih, hh]

/-- C9: the registry calls hooks in registration order and log-and-swallows
their errors. Registering a list of extensions fills every one of the
fourteen hook caches with exactly the implementing extensions, in
registration order, and keeps the full extension list; an emit over a cache
produces exactly one WARN "extension hook error" record — carrying the hook
name, extension name and error text — per erroring hook, in that same
order, and nothing else: the Go Emit methods return no value, and an
earlier hook's error never prevents the later hooks from running (the log
of a concatenation splits as the concatenation of the logs). -/
theorem registry_order_warn_swallow (es : List WExt) :
    ((registerAll es).extensions = es ∧
      (registerAll es).collectionCreated = cacheOf (fun e => e.onCollectionCreated) es ∧
      (registerAll es).collectionDeleted = cacheOf (fun e => e.onCollectionDeleted) es ∧
      (registerAll es).ingestStarted = cacheOf (fun e => e.onIngestStarted) es ∧
      (registerAll es).ingestChunked = cacheOf (fun e => e.onIngestChunked) es ∧
      (registerAll es).ingestEmbedded = cacheOf (fun e => e.onIngestEmbedded) es ∧
      (registerAll es).ingestCompleted = cacheOf (fun e => e.onIngestCompleted) es ∧
      (registerAll es).ingestFailed = cacheOf (fun e => e.onIngestFailed) es ∧
      (registerAll es).retrievalStarted = cacheOf (fun e => e.onRetrievalStarted) es ∧
      (registerAll es).retrievalCompleted = cacheOf (fun e => e.onRetrievalCompleted) es ∧
      (registerAll es).retrievalFailed = cacheOf (fun e => e.onRetrievalFailed) es ∧
      (registerAll es).documentDeleted = cacheOf (fun e => e.onDocumentDeleted) es ∧
      (registerAll es).reindexStarted = cacheOf (fun e => e.onReindexStarted) es ∧
      (registerAll es).reindexCompleted = cacheOf (fun e => e.onReindexCompleted) es ∧
      (registerAll es).shutdown = cacheOf (fun e => e.onShutdown) es) ∧
    (∀ (α : Type) (entries more : List (NamedHook α)) (hookName : String) (a : α),
      emitHooks entries hookName a
        = entries.filterMap (fun e =>
            (e.hook a).map (logHookError hookName e.name)) ∧
      (∀ lr ∈ emitHooks entries hookName a, lr.level = "WARN" ∧
        lr.msg = "extension hook error" ∧ lr.hookName = hookName ∧
        (∃ e ∈ entries, lr.extName = e.name ∧ e.hook a = some lr.errText)) ∧
      emitHooks (entries ++ more) hookName a
        = emitHooks entries hookName a ++ emitHooks more hookName a) := by
  constructor
  · refine ⟨?_, ?_, ?_, ?_, ?_, ?_, ?_, ?_, ?_, ?_, ?_, ?_, ?_, ?_, ?_⟩
    · exact (foldl_register_extensions es {}).trans (by simp)
    all_goals
      exact (foldl_register_proj _ _ (fun _ _ => rfl) es {}).trans (by simp)
  · intro α entries more hookName a
    refine ⟨emitHooks_foldl hookName a entries [] |>.trans (by simp), ?_, ?_⟩
    · intro lr hlr
      rw [emitHooks, emitHooks_foldl hookName a entries []] at hlr
      simp only [List.nil_append, List.mem_filterMap, Option.map_eq_some'] at hlr
      obtain ⟨e, he, errText, herr, hrec⟩ := hlr
      subst hrec
      exact ⟨rfl, rfl, rfl, e, he, rfl, herr⟩
    · rw [emitHooks, emitHooks, emitHooks,
        emitHooks_foldl hookName a entries [],
        emitHooks_foldl hookName a more [],
        emitHooks_foldl hookName a (entries ++ more) []]
      simp [List.filterMap_append]
